import Mathlib

/-!
A shallow embedding in Lean 4 of `src/main.py` from the
CivitaiModelPreviewDownloader repository, together with theorems settling
the specification claims about it.

The program is a linear batch loop: it lists a folder, and for every
`.ckpt` / `.safetensors` file computes a content hash, queries a metadata
endpoint, optionally widens the image set to the whole model, and writes a
markdown description plus preview images into a per-file folder.

External effects (directory listing, file hashing, HTTP GET, file writes,
HTML-to-markdown conversion) are modelled by an environment of oracles
(`Env`); the run is embedded as a pure function producing the list of
observable events (console prints, network GETs, directory creations, file
writes) plus a flag recording whether the run completed normally or died
on an uncaught exception.
-/

namespace Civitai

/-- Characters legal in a stored filename fragment: the complement of the
Python regex character class `[^0-9a-zA-Z_\-]` in `format_storage_hash`. -/
def isStorageChar (c : Char) : Bool :=
  ('0' ≤ c && c ≤ '9') || ('a' ≤ c && c ≤ 'z') || ('A' ≤ c && c ≤ 'Z') || c = '_' || c = '-'

/-- Embedding of `format_storage_hash(string, length)` (src/main.py lines 9-21):
replace every character outside `[0-9a-zA-Z_-]` by `'_'`
(`re.sub(r"[^0-9a-zA-Z_\-]", '_', string)`), then truncate to `length`
characters (`temp_string[:length]`). -/
def format_storage_hash (s : String) (length : Nat) : String :=
  String.mk (((s.data.map (fun c => if isStorageChar c then c else '_'))).take length)

/-- Whether `p` is a prefix of `s`, on code points (Python `str.startswith`). -/
def strStartsWith (s p : String) : Bool := p.data.isPrefixOf s.data

/-- Whether `p` is a suffix of `s`, on code points (Python `str.endswith`). -/
def strEndsWith (s p : String) : Bool := p.data.isSuffixOf s.data

/-- `os.path.join` for two components (POSIX semantics, as used by the
script): an absolute second component replaces the first, otherwise the two
are joined with a single `/`. -/
def path_join (a b : String) : String :=
  if strStartsWith b "/" then b
  else if a = "" || strEndsWith a "/" then a ++ b
  else a ++ "/" ++ b

/-- The root part of `os.path.splitext` for a bare filename (no directory
separators): cut at the last dot, unless every character before that dot is
itself a dot (CPython's leading-dot rule, under which the name has no
extension). -/
def splitextRoot (p : String) : String :=
  let cs := p.data
  match cs.reverse.findIdx? (fun c => c = '.') with
  | none => p
  | some r =>
    let d := cs.length - 1 - r
    if (cs.take d).any (fun c => c ≠ '.') then String.mk (cs.take d) else p

/-- model-versions by hash API endpoint URL (src/main.py line 25). -/
def api_endpoint : String := "https://civitai.com/api/v1/model-versions/by-hash/"

/-- model API (src/main.py line 28). -/
def api_endpoint_model : String := "https://civitai.com/api/v1/models/"

/-- The closed ranges of code points of Unicode general category Nd
(decimal digit), Unicode 14.0.0. -/
def ndRanges : List (Nat × Nat) :=
  [(48, 57), (1632, 1641), (1776, 1785), (1984, 1993), (2406, 2415),
   (2534, 2543), (2662, 2671), (2790, 2799), (2918, 2927), (3046, 3055),
   (3174, 3183), (3302, 3311), (3430, 3439), (3558, 3567), (3664, 3673),
   (3792, 3801), (3872, 3881), (4160, 4169), (4240, 4249), (6112, 6121),
   (6160, 6169), (6470, 6479), (6608, 6617), (6784, 6793), (6800, 6809),
   (6992, 7001), (7088, 7097), (7232, 7241), (7248, 7257), (42528, 42537),
   (43216, 43225), (43264, 43273), (43472, 43481), (43504, 43513),
   (43600, 43609), (44016, 44025), (65296, 65305), (66720, 66729),
   (68912, 68921), (69734, 69743), (69872, 69881), (69942, 69951),
   (70096, 70105), (70384, 70393), (70736, 70745), (70864, 70873),
   (71248, 71257), (71360, 71369), (71472, 71481), (71904, 71913),
   (72016, 72025), (72784, 72793), (73040, 73049), (73120, 73129),
   (92768, 92777), (92864, 92873), (93008, 93017), (120782, 120831),
   (123200, 123209), (123632, 123641), (125264, 125273), (130032, 130041)]

/-- A digit, as matched by `\d` in the width pattern of src/main.py
line 126: a Python `str` pattern's `\d` matches any Unicode decimal digit
(general category Nd), not only ASCII `0-9`. -/
def isDigitChar (c : Char) : Bool :=
  ndRanges.any (fun r => r.1 ≤ c.toNat && c.toNat ≤ r.2)

/-- Try to match the regex `/width=\d+/` at the head of the character list.
On success return the remainder of the list after the whole match (the
match consumes its trailing `/`). `\d+` is greedy and is followed by a
literal `/`, so a match needs the maximal digit run after `/width=` to be
nonempty and immediately followed by `/`. -/
def tryMatchWidth (cs : List Char) : Option (List Char) :=
  match cs with
  | '/' :: 'w' :: 'i' :: 'd' :: 't' :: 'h' :: '=' :: rest =>
    match rest.takeWhile isDigitChar, rest.dropWhile isDigitChar with
    | [], _ => none
    | _ :: _, '/' :: rest3 => some rest3
    | _ :: _, _ => none
  | _ => none

/-- Left-to-right scan of `re.sub(r'/width=\d+/', f'/width={w}/', ·)`,
structurally recursive on a fuel argument: each step consumes at least one
character (a match consumes at least nine), so any fuel at least the
length of the list produces the full substitution. The `0, _ :: _` case is
never reached from `subWidth`. -/
def subWidthFuel (w : Nat) : Nat → List Char → List Char
  | _, [] => []
  | 0, c :: rest => c :: rest
  | fuel + 1, c :: rest =>
    match tryMatchWidth (c :: rest) with
    | some rem => ("/width=" ++ toString w ++ "/").data ++ subWidthFuel w fuel rem
    | none => c :: subWidthFuel w fuel rest

/-- Embedding of `re.sub(r'/width=\d+/', f'/width={w}/', ·)`
(src/main.py line 126): scan left to right, replace every non-overlapping
match of `/width=\d+/` by `/width={w}/`, resuming after each match. -/
def subWidth (w : Nat) (cs : List Char) : List Char := subWidthFuel w cs.length cs

/-- Holds iff the regex `/width=\d+/` matches somewhere in the list. -/
def hasWidthMatch : List Char → Bool
  | [] => false
  | c :: rest => (tryMatchWidth (c :: rest)).isSome || hasWidthMatch rest

/-- An image record of the API response, as read by the script: its `url`,
`width` and `hash` fields (src/main.py lines 126, 134). -/
structure ImageRec where
  url : String
  width : Nat
  hash : String
deriving DecidableEq

/-- The JSON body of a model-versions-by-hash response, restricted to the
fields the script reads. An outer `none` models the field being absent
(a dictionary access raising `KeyError`); `description` is also nullable
(`some none` = field present with value `null`). -/
structure VersionBody where
  description : Option (Option String)
  modelId : Option Nat
  images : Option (List ImageRec)
deriving DecidableEq

/-- One entry of `modelVersions` in a model response; `none` models the
`images` field being absent from that version. -/
structure VersionM where
  images : Option (List ImageRec)
deriving DecidableEq

/-- The JSON body of a model-by-id response, restricted to the fields the
script reads; `none` models an absent field. -/
structure ModelBody where
  description : Option (Option String)
  modelVersions : Option (List VersionM)
deriving DecidableEq

/-- Embedding of the list comprehension
`[image for version in response.json()['modelVersions'] for image in version['images']]`
(src/main.py line 98): images of every version concatenated in document
order; `none` if some version lacks its `images` field (`KeyError`). -/
def collectImages : List VersionM → Option (List ImageRec)
  | [] => some []
  | v :: vs =>
    match v.images, collectImages vs with
    | some is, some rest => some (is ++ rest)
    | _, _ => none

/-- An observable event of a run: a console print, an HTTP GET, a
directory creation, or a file write. -/
inductive Event where
  | print (line : String)
  | netGet (url : String)
  | mkdir (path : String)
  | write (path : String) (content : String)
deriving DecidableEq

def Event.isNet : Event → Bool
  | .netGet _ => true
  | _ => false

def Event.isWrite : Event → Bool
  | .write _ _ => true
  | _ => false

/-- The environment of oracles standing for the script's external effects.
`hashFile` models `open` + `sha256 hexdigest` (`none` = the `try` at
src/main.py lines 61-66 catches an exception). `getVersion`, `getModel`
and `getImage` model `requests.get` + `.json()` on the three kinds of URL
(`none` = a `requests.exceptions.RequestException`; otherwise the pair of
`response.ok`, i.e. whether `raise_for_status()` passes, and the body).
`writeOk` tells whether writing a given path succeeds. `md` models
`markdownify.markdownify`. -/
structure Env where
  listdir : List String
  pathExists : String → Bool
  hashFile : String → Option String
  getVersion : String → Option (Bool × VersionBody)
  getModel : String → Option (Bool × ModelBody)
  getImage : String → Option (Bool × String)
  writeOk : String → Bool
  md : String → String

/-- The markdown text written for a description (src/main.py line 115):
`markdownify.markdownify(description, ...) if description else ""`, where
a `None` or empty description is falsy. -/
def mdContent (md : String → String) : Option String → String
  | none => ""
  | some d => if d = "" then "" else md d

/-- The preview folder of a candidate file:
`os.path.join(folder_path, "Previews", file_noext)` (src/main.py line 56). -/
def previewFolder (folder_path file_noext : String) : String :=
  path_join (path_join folder_path "Previews") file_noext

/-- The path of the markdown description file (src/main.py lines 114, 117). -/
def mdPath (folder_path file_noext : String) : String :=
  path_join (previewFolder folder_path file_noext) (file_noext ++ ".md")

/-- The filename of a saved image (src/main.py line 138):
`f"{i}_{file_noext}.{formatted_hash}.png"` with
`formatted_hash = format_storage_hash(image["hash"], 32)`. -/
def imageFileName (i : Nat) (file_noext imageHash : String) : String :=
  toString i ++ "_" ++ file_noext ++ "." ++ format_storage_hash imageHash 32 ++ ".png"

/-- The path of a saved image (src/main.py lines 138, 140). -/
def imgPath (folder_path file_noext : String) (i : Nat) (imageHash : String) : String :=
  path_join (previewFolder folder_path file_noext) (imageFileName i file_noext imageHash)

/-- The URL actually fetched for an image record (src/main.py line 126):
`re.sub(r'/width=\d+/', f'/width={image["width"]}/', image["url"])`. -/
def rewriteWidthUrl (image : ImageRec) : String :=
  String.mk (subWidth image.width image.url.data)

/-- Embedding of the image loop (src/main.py lines 124-144): for each
enumerated image, rewrite the width in its URL, GET it, and on success
write it under `{i}_{file_noext}.{formatted_hash}.png`; download or write
failures print an error and continue with the next image. -/
def saveImages (env : Env) (filename folder_name file_noext : String) :
    List (Nat × ImageRec) → List Event
  | [] => []
  | (i, image) :: rest =>
    let url := rewriteWidthUrl image
    let tail := saveImages env filename folder_name file_noext rest
    Event.netGet url ::
      match env.getImage url with
      | none =>
        Event.print ("Error downloading image " ++ toString i ++ " for file " ++ filename) :: tail
      | some (success, content) =>
        if !success then
          Event.print ("Error downloading image " ++ toString i ++ " for file " ++ filename) :: tail
        else
          let p := path_join folder_name (imageFileName i file_noext image.hash)
          if env.writeOk p then Event.write p content :: tail
          else Event.print ("Error saving image " ++ toString i ++ " for file " ++ filename) :: tail

/-- Embedding of src/main.py lines 109-144, after the metadata phase fixed
`description` and the enumerated image list: create the preview folder,
write the markdown description (a failed write prints an error and skips
the images, line 121's `continue`), then run the image loop. -/
def finishFile (env : Env) (filename folder_name file_noext : String)
    (description : Option String) (images : List (Nat × ImageRec)) : List Event :=
  let mdp := path_join folder_name (file_noext ++ ".md")
  Event.mkdir folder_name ::
    if env.writeOk mdp then
      Event.write mdp (mdContent env.md description) ::
        saveImages env filename folder_name file_noext images
    else
      [Event.print ("Error saving description for file " ++ filename)]

/-- The progress line printed for a processed file (src/main.py line 51). -/
def progressLine (counter total : Nat) (filename : String) : String :=
  "Processing file (" ++ toString counter ++ "/" ++ toString total ++ ") " ++ filename

/-- The extension filter of src/main.py line 49:
`filename.endswith(".ckpt") or filename.endswith(".safetensors")`. -/
def isCandidate (filename : String) : Bool :=
  strEndsWith filename ".ckpt" || strEndsWith filename ".safetensors"

/-- Embedding of one iteration of the file loop (src/main.py lines 47-144).
Returns the events of this iteration and a flag that is `true` when the
iteration dies on an uncaught exception (which aborts the whole run):
this happens at `response.json()["modelId"]` (line 93) and at
`response.json()["images"]` (line 107), both evaluated outside any `try`,
when the field is absent. -/
def processFile (env : Env) (folder_path : String) (force_update check_entire_model : Bool)
    (total counter : Nat) (filename : String) : List Event × Bool :=
  if !isCandidate filename then ([], false)
  else
    let progress := Event.print (progressLine counter total filename)
    let file_path := path_join folder_path filename
    let file_noext := splitextRoot filename
    let folder_name := previewFolder folder_path file_noext
    if !force_update && env.pathExists folder_name then ([progress], false)
    else
      match env.hashFile file_path with
      | none => ([progress, Event.print ("Error computing hash of file " ++ filename)], false)
      | some file_hash =>
        let api_url := api_endpoint ++ file_hash
        let pre := [progress, Event.netGet api_url]
        match env.getVersion api_url with
        | none =>
          (pre ++ [Event.print ("Error making API request for file " ++ filename)], false)
        | some (success, body) =>
          match body.description with
          | none =>
            (pre ++ [Event.print ("Missing value from response for file " ++ filename)], false)
          | some description =>
            if !success then
              (pre ++ [Event.print ("Error making API request for file " ++ filename)], false)
            else if check_entire_model then
              match body.modelId with
              | none => (pre, true)   -- uncaught KeyError at line 93: run aborts
              | some mid =>
                let api_url2 := api_endpoint_model ++ toString mid
                let pre2 := pre ++ [Event.netGet api_url2]
                match env.getModel api_url2 with
                | none =>
                  (pre2 ++ [Event.print ("Error making API request for file " ++ filename)],
                    false)
                | some (s2, mbody) =>
                  match mbody.description with
                  | none =>
                    (pre2 ++ [Event.print ("Missing value from response for file " ++ filename)],
                      false)
                  | some description2 =>
                    match mbody.modelVersions with
                    | none =>
                      (pre2 ++
                        [Event.print ("Missing value from response for file " ++ filename)],
                        false)
                    | some versions =>
                      match collectImages versions with
                      | none =>
                        (pre2 ++
                          [Event.print ("Missing value from response for file " ++ filename)],
                          false)
                      | some allImages =>
                        if !s2 then
                          (pre2 ++
                            [Event.print ("Error making API request for file " ++ filename)],
                            false)
                        else
                          (pre2 ++
                            finishFile env filename folder_name file_noext description2
                              allImages.enum,
                            false)
            else
              match body.images with
              | none => (pre, true)   -- uncaught KeyError at line 107: run aborts
              | some images =>
                (pre ++ finishFile env filename folder_name file_noext description images.enum,
                  false)

/-- The file loop of `main` (src/main.py lines 45-146), threading the
1-based counter; a crashed iteration stops the run (no completion line),
otherwise the final `"Finished processing all files."` is printed. The
second component is `true` iff the run completed normally. -/
def runFiles (env : Env) (folder_path : String) (force_update check_entire_model : Bool)
    (total : Nat) : Nat → List String → List Event × Bool
  | _, [] => ([Event.print "Finished processing all files."], true)
  | counter, filename :: rest =>
    let r := processFile env folder_path force_update check_entire_model total
      (counter + 1) filename
    if r.2 then (r.1, false)
    else
      let rr := runFiles env folder_path force_update check_entire_model total (counter + 1) rest
      (r.1 ++ rr.1, rr.2)

/-- Embedding of `main(folder_path, force_update, check_entire_model)`
(src/main.py lines 31-146). -/
def mainRun (env : Env) (folder_path : String) (force_update check_entire_model : Bool) :
    List Event × Bool :=
  runFiles env folder_path force_update check_entire_model env.listdir.length 0 env.listdir

/-! ### Concrete definitions used in statements and witnesses -/

/-- The characters of a concrete match of the regex `/width=\d+/` whose
digit run is `ds`. -/
def widthSegment (ds : List Char) : List Char := "/width=".data ++ ds ++ ['/']

/-- A concrete first-version image. -/
def img1 : ImageRec := ⟨"u1", 100, "h1"⟩

/-- A concrete second-version image. -/
def img2 : ImageRec := ⟨"u2", 200, "h2"⟩

/-- A concrete environment: one candidate file, every oracle succeeds, the
owning model has two versions with one image each, the version record
matching the hash carries the first version's image. -/
def env2 : Env := {
  listdir := ["m.ckpt"]
  pathExists := fun _ => false
  hashFile := fun _ => some "H"
  getVersion := fun _ => some (true, ⟨some (some "d"), some 7, some [img1]⟩)
  getModel := fun _ => some (true, ⟨some (some "d"), some [⟨some [img1]⟩, ⟨some [img2]⟩]⟩)
  getImage := fun _ => some (true, "IMG")
  writeOk := fun _ => true
  md := id }

/-- A concrete environment exhibiting the uncaught `KeyError` of
src/main.py line 93: two candidate files, the metadata response carries a
description and images but no `modelId` field. -/
def env3 : Env := {
  listdir := ["a.ckpt", "b.ckpt"]
  pathExists := fun _ => false
  hashFile := fun _ => some "H"
  getVersion := fun _ => some (true, ⟨some (some "d"), none, some []⟩)
  getModel := fun _ => none
  getImage := fun _ => none
  writeOk := fun _ => true
  md := id }

/-- A concrete environment in which every preview folder already exists. -/
def env5 : Env := {
  listdir := ["m.ckpt"]
  pathExists := fun _ => true
  hashFile := fun _ => none
  getVersion := fun _ => none
  getModel := fun _ => none
  getImage := fun _ => none
  writeOk := fun _ => true
  md := id }

/-- A concrete environment: one candidate file with three images, and the
download of the image at index 1 (URL `u1`) fails. -/
def env6 : Env := {
  listdir := ["m.ckpt"]
  pathExists := fun _ => false
  hashFile := fun _ => some "H"
  getVersion := fun _ =>
    some (true, ⟨some (some "d"), some 7,
      some [⟨"u0", 100, "h0"⟩, ⟨"u1", 100, "h1"⟩, ⟨"u2", 100, "h2"⟩]⟩)
  getModel := fun _ => none
  getImage := fun u => if u = "u1" then none else some (true, "IMG")
  writeOk := fun _ => true
  md := id }

/-- A concrete environment whose metadata response carries a `null`
description. -/
def env8 : Env := {
  listdir := ["m.ckpt"]
  pathExists := fun _ => false
  hashFile := fun _ => some "H"
  getVersion := fun _ => some (true, ⟨some none, some 7, some []⟩)
  getModel := fun _ => none
  getImage := fun _ => none
  writeOk := fun _ => true
  md := id }

/-- A concrete environment whose directory contains a single
non-candidate file. -/
def env9 : Env := {
  listdir := ["readme.txt"]
  pathExists := fun _ => false
  hashFile := fun _ => none
  getVersion := fun _ => none
  getModel := fun _ => none
  getImage := fun _ => none
  writeOk := fun _ => true
  md := id }


/-! ### Claim C1: the filename sanitizer -/

/-- C1: for every input string `s` and natural bound `n`,
`format_storage_hash s n` is a string all of whose characters lie in
`[0-9a-zA-Z_-]` and whose length is at most `n`, and it equals the result
of replacing every character of `s` outside that set by `'_'` and
truncating to `n` characters. -/
theorem format_storage_hash_spec (s : String) (n : Nat) :
    (format_storage_hash s n).data.all isStorageChar = true ∧
    (format_storage_hash s n).length ≤ n ∧
    format_storage_hash s n =
      String.mk ((s.data.map (fun c => if isStorageChar c then c else '_')).take n) := by
  refine ⟨?_, ?_, rfl⟩
  · rw [List.all_eq_true]
    intro c hc
    have hc' : c ∈ s.data.map (fun c => if isStorageChar c then c else '_') :=
      List.take_subset _ _ hc
    obtain ⟨a, _, rfl⟩ := List.mem_map.1 hc'
    cases h : isStorageChar a
    · show isStorageChar '_' = true
      decide
    · show isStorageChar a = true
      exact h
  · show ((s.data.map (fun c => if isStorageChar c then c else '_')).take n).length ≤ n
    rw [List.length_take]
    exact min_le_left _ _

/-! ### Claims C4 and C10: the width rewrite -/

theorem tryMatchWidth_some_length {cs rem : List Char}
    (h : tryMatchWidth cs = some rem) : rem.length < cs.length := by
  unfold tryMatchWidth at h
  split at h
  next rest =>
    split at h
    · cases h
    next rest3 _ heq =>
      cases h
      have h1 : (rest.dropWhile isDigitChar).length ≤ rest.length :=
        (List.dropWhile_sublist isDigitChar).length_le
      rw [heq] at h1
      simp only [List.length_cons] at h1 ⊢
      omega
    next => cases h
  next => cases h

theorem tryMatchWidth_eq_some {cs rem : List Char} (h : tryMatchWidth cs = some rem) :
    ∃ ds, ds ≠ [] ∧ ds.all isDigitChar = true ∧ cs = widthSegment ds ++ rem := by
  unfold tryMatchWidth at h
  split at h
  next rest =>
    split at h
    · cases h
    next d ds' rest3 htake hdrop =>
      cases h
      refine ⟨d :: ds', by simp, ?_, ?_⟩
      · have : ∀ c ∈ rest.takeWhile isDigitChar, isDigitChar c = true := fun c hc =>
          List.mem_takeWhile_imp hc
        rw [htake] at this
        rw [List.all_eq_true]
        exact this
      · have hsplit : rest.takeWhile isDigitChar ++ rest.dropWhile isDigitChar = rest :=
          List.takeWhile_append_dropWhile _ _
        rw [htake, hdrop] at hsplit
        show _ = widthSegment (d :: ds') ++ rem
        rw [widthSegment]
        show ('/' :: 'w' :: 'i' :: 'd' :: 't' :: 'h' :: '=' :: rest : List Char) = _
        rw [← hsplit]
        simp
    next => cases h
  next => cases h

theorem takeWhile_digits_append (ds suf : List Char) (hdig : ds.all isDigitChar = true) :
    (ds ++ '/' :: suf).takeWhile isDigitChar = ds ∧
    (ds ++ '/' :: suf).dropWhile isDigitChar = '/' :: suf := by
  have hslash : isDigitChar '/' = false := by decide
  induction ds with
  | nil => simp [List.takeWhile_cons, List.dropWhile_cons, hslash]
  | cons d ds ih =>
    rw [List.all_cons, Bool.and_eq_true] at hdig
    have := ih hdig.2
    simp [List.takeWhile_cons, List.dropWhile_cons, hdig.1, this.1, this.2]

theorem infixOfCons {l₁ l₂ : List Char} {a : Char} (h : l₁ <:+: l₂) : l₁ <:+: a :: l₂ := by
  obtain ⟨s, t, rfl⟩ := h
  exact ⟨a :: s, t, rfl⟩

theorem tryMatchWidth_cons_eq (rest : List Char) :
    tryMatchWidth ('/' :: 'w' :: 'i' :: 'd' :: 't' :: 'h' :: '=' :: rest) =
      match rest.takeWhile isDigitChar, rest.dropWhile isDigitChar with
      | [], _ => none
      | _ :: _, '/' :: rest3 => some rest3
      | _ :: _, _ => none := rfl

theorem tryMatchWidth_widthSegment (ds suf : List Char) (hne : ds ≠ [])
    (hdig : ds.all isDigitChar = true) :
    tryMatchWidth (widthSegment ds ++ suf) = some suf := by
  obtain ⟨d, ds', rfl⟩ := List.exists_cons_of_ne_nil hne
  have hsegsuf : widthSegment (d :: ds') ++ suf =
      '/' :: 'w' :: 'i' :: 'd' :: 't' :: 'h' :: '=' :: ((d :: ds') ++ '/' :: suf) := by
    rw [widthSegment]; simp
  have h := takeWhile_digits_append (d :: ds') suf hdig
  rw [hsegsuf, tryMatchWidth_cons_eq, h.1, h.2]
  rfl

theorem hasWidthMatch_iff (cs : List Char) :
    hasWidthMatch cs = true ↔
      ∃ ds, ds ≠ [] ∧ ds.all isDigitChar = true ∧ widthSegment ds <:+: cs := by
  constructor
  · induction cs with
    | nil => intro h; cases h
    | cons c rest ih =>
      intro h
      rw [hasWidthMatch, Bool.or_eq_true] at h
      rcases h with h | h
      · obtain ⟨rem, hrem⟩ := Option.isSome_iff_exists.1 h
        obtain ⟨ds, hne, hdig, heq⟩ := tryMatchWidth_eq_some hrem
        exact ⟨ds, hne, hdig, [], rem, by rw [heq]; simp [widthSegment]⟩
      · obtain ⟨ds, hne, hdig, hinf⟩ := ih h
        exact ⟨ds, hne, hdig, infixOfCons hinf⟩
  · rintro ⟨ds, hne, hdig, pre, suf, heq⟩
    induction pre generalizing cs with
    | nil =>
      obtain ⟨d, ds', rfl⟩ := List.exists_cons_of_ne_nil hne
      have : cs = '/' :: 'w' :: 'i' :: 'd' :: 't' :: 'h' :: '=' :: ((d :: ds') ++ '/' :: suf) := by
        rw [← heq, widthSegment]; simp
      subst this
      rw [hasWidthMatch, Bool.or_eq_true]
      left
      have : tryMatchWidth (widthSegment (d :: ds') ++ suf) = some suf :=
        tryMatchWidth_widthSegment _ _ hne hdig
      rw [show widthSegment (d :: ds') ++ suf =
        '/' :: 'w' :: 'i' :: 'd' :: 't' :: 'h' :: '=' :: ((d :: ds') ++ '/' :: suf) by
          rw [widthSegment]; simp] at this
      rw [this]
      rfl
    | cons p pre' ih =>
      have : cs = p :: (pre' ++ widthSegment ds ++ suf) := by rw [← heq]; simp
      subst this
      rw [hasWidthMatch, Bool.or_eq_true]
      right
      exact ih _ rfl

theorem subWidthFuel_infix_of_match (w : Nat) :
    ∀ (fuel : Nat) (cs : List Char), cs.length ≤ fuel → hasWidthMatch cs = true →
      ("/width=" ++ toString w ++ "/").data <:+: subWidthFuel w fuel cs := by
  intro fuel
  induction fuel with
  | zero =>
    intro cs hlen h
    cases cs with
    | nil => cases h
    | cons c rest => simp at hlen
  | succ fuel ih =>
    intro cs hlen h
    cases cs with
    | nil => cases h
    | cons c rest =>
      rw [hasWidthMatch, Bool.or_eq_true] at h
      rcases hm : tryMatchWidth (c :: rest) with _ | rem
      · have h' : hasWidthMatch rest = true := by
          rcases h with h | h
          · rw [hm] at h; cases h
          · exact h
        have hr : rest.length ≤ fuel := by
          simp only [List.length_cons] at hlen; omega
        have := ih rest hr h'
        simp only [subWidthFuel, hm]
        exact infixOfCons this
      · simp only [subWidthFuel, hm]
        exact ⟨[], subWidthFuel w fuel rem, by simp⟩

theorem subWidthFuel_id_of_no_match (w : Nat) :
    ∀ (fuel : Nat) (cs : List Char), hasWidthMatch cs = false →
      subWidthFuel w fuel cs = cs := by
  intro fuel
  induction fuel with
  | zero =>
    intro cs h
    cases cs <;> rfl
  | succ fuel ih =>
    intro cs h
    cases cs with
    | nil => rfl
    | cons c rest =>
      rw [hasWidthMatch, Bool.or_eq_false_iff] at h
      rcases hm : tryMatchWidth (c :: rest) with _ | rem
      · simp only [subWidthFuel, hm]
        rw [ih rest h.2]
      · rw [hm] at h
        cases h.1

theorem subWidth_infix_of_match (w : Nat) (cs : List Char) (h : hasWidthMatch cs = true) :
    ("/width=" ++ toString w ++ "/").data <:+: subWidth w cs :=
  subWidthFuel_infix_of_match w cs.length cs le_rfl h

theorem subWidth_id_of_no_match (w : Nat) (cs : List Char) (h : hasWidthMatch cs = false) :
    subWidth w cs = cs :=
  subWidthFuel_id_of_no_match w cs.length cs h

/-- C4: for every image record whose URL contains the segment
`/width=100/` and whose declared width is 512, the URL fetched for it
(the width rewrite of src/main.py line 126) contains `/width=512/`. -/
theorem width_rewrite_spec (image : ImageRec) (hw : image.width = 512)
    (hurl : ("/width=100/").data <:+: image.url.data) :
    ("/width=512/").data <:+: (rewriteWidthUrl image).data := by
  have h1 : hasWidthMatch image.url.data = true := by
    apply (hasWidthMatch_iff _).2
    refine ⟨['1', '0', '0'], by decide, by decide, ?_⟩
    have : widthSegment ['1', '0', '0'] = ("/width=100/").data := by decide
    rw [this]
    exact hurl
  have h2 := subWidth_infix_of_match image.width image.url.data h1
  rw [hw] at h2
  have h3 : ("/width=" ++ toString 512 ++ "/").data = ("/width=512/").data := by decide
  rw [h3] at h2
  show ("/width=512/").data <:+: subWidth image.width image.url.data
  rw [hw]
  exact h2

/-- Witness for C4 at a concrete image record. -/
theorem width_rewrite_spec_witness :
    ("/width=512/").data <:+:
      (rewriteWidthUrl ⟨"https://x/width=100/i.png", 512, "h"⟩).data :=
  width_rewrite_spec ⟨"https://x/width=100/i.png", 512, "h"⟩ rfl (by decide)

/-- C10: `hasWidthMatch` decides exactly "some substring matches
`/width=<digits>/`", and the width rewrite (src/main.py line 126) is the
identity on every image record whose URL has no such substring, so the
URL is fetched unchanged. -/
theorem width_rewrite_id :
    (∀ cs : List Char, hasWidthMatch cs = true ↔
      ∃ ds, ds ≠ [] ∧ ds.all isDigitChar = true ∧ widthSegment ds <:+: cs) ∧
    ∀ image : ImageRec, hasWidthMatch image.url.data = false →
      rewriteWidthUrl image = image.url := by
  refine ⟨hasWidthMatch_iff, fun image h => ?_⟩
  rw [rewriteWidthUrl, subWidth_id_of_no_match _ _ h]

/-- Witness for C10 at a concrete image record whose URL contains
`width=100` not followed by a slash. -/
theorem width_rewrite_id_witness :
    rewriteWidthUrl ⟨"https://x/width=100abc", 9, "h"⟩ = "https://x/width=100abc" :=
  width_rewrite_id.2 ⟨"https://x/width=100abc", 9, "h"⟩ (by decide)

/-! ### Claim C2: model-scoped vs version-scoped image sets -/

/-- C2: with `check_entire_model` set, the image set of a processed file is
the concatenation of every version's images in document order
(`collectImages`), re-enumerated 0-based (the `.enum` in `processFile`);
concretely, on a model with two versions of one image each, the
model-scoped run saves exactly the two image files indexed 0 and 1, while
the version-scoped run saves exactly one. -/
theorem check_entire_model_images :
    (∀ versions : List (List ImageRec),
      collectImages (versions.map (fun is => ⟨some is⟩)) = some versions.flatten) ∧
    mainRun env2 "f" false true =
      ([.print "Processing file (1/1) m.ckpt",
        .netGet "https://civitai.com/api/v1/model-versions/by-hash/H",
        .netGet "https://civitai.com/api/v1/models/7",
        .mkdir "f/Previews/m",
        .write "f/Previews/m/m.md" "d",
        .netGet "u1", .write "f/Previews/m/0_m.h1.png" "IMG",
        .netGet "u2", .write "f/Previews/m/1_m.h2.png" "IMG",
        .print "Finished processing all files."], true) ∧
    mainRun env2 "f" false false =
      ([.print "Processing file (1/1) m.ckpt",
        .netGet "https://civitai.com/api/v1/model-versions/by-hash/H",
        .mkdir "f/Previews/m",
        .write "f/Previews/m/m.md" "d",
        .netGet "u1", .write "f/Previews/m/0_m.h1.png" "IMG",
        .print "Finished processing all files."], true) := by
  refine ⟨fun versions => ?_, by decide, by decide⟩
  induction versions with
  | nil => rfl
  | cons v vs ih => simp [collectImages, ih]

/-! ### Claim C3: scope of metadata-failure handling -/

/-- C3 (code bug): with `check_entire_model` set and a metadata response
missing its `modelId` field, the access `response.json()["modelId"]`
(src/main.py line 93) sits outside every `try`, so the whole run aborts:
the second file is never processed and the completion line is never
printed — not just the current file's processing. -/
theorem missing_modelId_aborts_run :
    mainRun env3 "f" false true =
      ([Event.print "Processing file (1/2) a.ckpt",
        Event.netGet "https://civitai.com/api/v1/model-versions/by-hash/H"], false) ∧
    Event.print "Finished processing all files." ∉ (mainRun env3 "f" false true).1 ∧
    Event.print "Processing file (2/2) b.ckpt" ∉ (mainRun env3 "f" false true).1 :=
  ⟨by decide, by decide, by decide⟩

/-! ### Claim C5: skipping files whose preview folder exists -/

theorem processFile_skip (env : Env) (fp : String) (cem : Bool) (total counter : Nat)
    (fn : String)
    (hex : env.pathExists (previewFolder fp (splitextRoot fn)) = true) :
    (processFile env fp false cem total counter fn).1.all
        (fun e => !e.isNet && !e.isWrite) = true ∧
    (processFile env fp false cem total counter fn).2 = false := by
  rw [processFile]
  cases hc : isCandidate fn
  · simp
  · simp [hex, Event.isNet, Event.isWrite]

theorem runFiles_skip (env : Env) (fp : String) (cem : Bool) (total : Nat)
    (fns : List String)
    (hall : ∀ fn ∈ fns, env.pathExists (previewFolder fp (splitextRoot fn)) = true) :
    ∀ counter : Nat,
      (runFiles env fp false cem total counter fns).1.all
        (fun e => !e.isNet && !e.isWrite) = true := by
  induction fns with
  | nil => intro counter; rw [runFiles]; simp [Event.isNet, Event.isWrite]
  | cons fn rest ih =>
    intro counter
    have h1 := processFile_skip env fp cem total (counter + 1) fn (hall fn (by simp))
    have h2 := ih (fun g hg => hall g (List.mem_cons_of_mem _ hg)) (counter + 1)
    rw [runFiles]
    simp only [h1.2, if_false, Bool.false_eq_true, List.all_append]
    rw [h1.1, h2]
    rfl

/-- C5: with `force_update` unset, a candidate file whose preview folder
already exists is skipped entirely — its iteration emits no network call,
no file write and no folder creation (only the progress line) — and a run
in which every listed file's preview folder exists emits no network call
and no file write at all. -/
theorem skip_existing_spec (env : Env) (fp fn : String) (cem : Bool) (total counter : Nat)
    (hfn : env.pathExists (previewFolder fp (splitextRoot fn)) = true)
    (hall : ∀ g ∈ env.listdir, env.pathExists (previewFolder fp (splitextRoot g)) = true) :
    ((processFile env fp false cem total counter fn).1.all
        (fun e => !e.isNet && !e.isWrite) = true ∧
      (processFile env fp false cem total counter fn).2 = false) ∧
    (mainRun env fp false cem).1.all (fun e => !e.isNet && !e.isWrite) = true :=
  ⟨processFile_skip env fp cem total counter fn hfn,
    runFiles_skip env fp cem env.listdir.length env.listdir hall 0⟩

/-- Witness for C5 at a concrete environment and file. -/
theorem skip_existing_spec_witness :
    ((processFile env5 "f" false false 1 1 "m.ckpt").1.all
        (fun e => !e.isNet && !e.isWrite) = true ∧
      (processFile env5 "f" false false 1 1 "m.ckpt").2 = false) ∧
    (mainRun env5 "f" false false).1.all (fun e => !e.isNet && !e.isWrite) = true :=
  skip_existing_spec env5 "f" "m.ckpt" false 1 1 rfl (fun _ _ => rfl)

/-! ### Claim C6: per-image failure isolation -/

theorem saveImages_mem_of_success (env : Env) (fn fo fe : String) :
    ∀ (imgs : List (Nat × ImageRec)) (i : Nat) (image : ImageRec) (content : String),
      (i, image) ∈ imgs →
      env.getImage (rewriteWidthUrl image) = some (true, content) →
      env.writeOk (path_join fo (imageFileName i fe image.hash)) = true →
      Event.write (path_join fo (imageFileName i fe image.hash)) content ∈
        saveImages env fn fo fe imgs := by
  intro imgs
  induction imgs with
  | nil => intro i image content h _ _; cases h
  | cons p rest ih =>
    intro i image content hmem hget hwrite
    rcases p with ⟨j, img⟩
    rcases List.mem_cons.1 hmem with heq | hmem'
    · cases heq
      simp [saveImages, hget, hwrite]
    · have htail := ih i image content hmem' hget hwrite
      rcases hg : env.getImage (rewriteWidthUrl img) with _ | ⟨s, cont⟩
      · simp [saveImages, hg, htail]
      · cases s
        · simp [saveImages, hg, htail]
        · by_cases hw : env.writeOk (path_join fo (imageFileName j fe img.hash)) = true
          · simp [saveImages, hg, hw, htail]
          · simp only [Bool.not_eq_true] at hw
            simp [saveImages, hg, hw, htail]

/-- C6: per-image failures are isolated. Generally, every enumerated image
whose own download and write succeed has its file written, whatever
happens to the other images; concretely, with three images where the
download of index 1 fails, images 0 and 2 are saved, the failure is
logged, and the run still prints the completion line. -/
theorem image_failure_isolated :
    (∀ (env : Env) (fn fo fe : String) (imgs : List (Nat × ImageRec)) (i : Nat)
        (image : ImageRec) (content : String),
      (i, image) ∈ imgs →
      env.getImage (rewriteWidthUrl image) = some (true, content) →
      env.writeOk (path_join fo (imageFileName i fe image.hash)) = true →
      Event.write (path_join fo (imageFileName i fe image.hash)) content ∈
        saveImages env fn fo fe imgs) ∧
    mainRun env6 "f" false false =
      ([.print "Processing file (1/1) m.ckpt",
        .netGet "https://civitai.com/api/v1/model-versions/by-hash/H",
        .mkdir "f/Previews/m",
        .write "f/Previews/m/m.md" "d",
        .netGet "u0", .write "f/Previews/m/0_m.h0.png" "IMG",
        .netGet "u1", .print "Error downloading image 1 for file m.ckpt",
        .netGet "u2", .write "f/Previews/m/2_m.h2.png" "IMG",
        .print "Finished processing all files."], true) :=
  ⟨fun env fn fo fe imgs i image content =>
      saveImages_mem_of_success env fn fo fe imgs i image content,
    by decide⟩

/-- Witness for C6's general part at a concrete image list. -/
theorem image_failure_isolated_witness :
    Event.write (path_join "f/Previews/m" (imageFileName 2 "m" "h2")) "IMG" ∈
      saveImages env6 "m.ckpt" "f/Previews/m" "m"
        [(0, ⟨"u0", 100, "h0"⟩), (1, ⟨"u1", 100, "h1"⟩), (2, ⟨"u2", 100, "h2"⟩)] :=
  image_failure_isolated.1 env6 "m.ckpt" "f/Previews/m" "m"
    [(0, ⟨"u0", 100, "h0"⟩), (1, ⟨"u1", 100, "h1"⟩), (2, ⟨"u2", 100, "h2"⟩)]
    2 ⟨"u2", 100, "h2"⟩ "IMG" (by decide) (by decide) (by decide)

/-! ### Claim C8: an absent description yields an empty markdown file -/

theorem mdContent_absent (md : String → String) (d : Option String)
    (h : d = none ∨ d = some "") : mdContent md d = "" := by
  rcases h with rfl | rfl <;> simp [mdContent]

/-- C8: for a candidate file whose metadata response carries a `null` or
empty description, the description step writes an empty markdown file at
the description path, and the file is neither skipped nor aborted (the
iteration does not crash and proceeds into the image loop). -/
theorem absent_description_empty_file (env : Env) (fp fn : String) (total counter : Nat)
    (contentHash : String) (body : VersionBody) (d : Option String)
    (images : List ImageRec)
    (hcand : isCandidate fn = true)
    (hex : env.pathExists (previewFolder fp (splitextRoot fn)) = false)
    (hhash : env.hashFile (path_join fp fn) = some contentHash)
    (hget : env.getVersion (api_endpoint ++ contentHash) = some (true, body))
    (hdesc : body.description = some d)
    (habsent : d = none ∨ d = some "")
    (himgs : body.images = some images)
    (hwr : env.writeOk (mdPath fp (splitextRoot fn)) = true) :
    Event.write (mdPath fp (splitextRoot fn)) "" ∈
      (processFile env fp false false total counter fn).1 ∧
    (processFile env fp false false total counter fn).2 = false := by
  rw [processFile, hcand]
  simp only [Bool.not_true, Bool.false_eq_true, if_false, Bool.not_false, Bool.true_and,
    hex, hhash, hget, hdesc, himgs]
  rw [finishFile]
  have hmdp : path_join (previewFolder fp (splitextRoot fn)) (splitextRoot fn ++ ".md") =
      mdPath fp (splitextRoot fn) := rfl
  rw [hmdp, hwr, mdContent_absent env.md d habsent]
  simp

/-- Witness for C8 at a concrete environment. -/
theorem absent_description_empty_file_witness :
    Event.write (mdPath "f" (splitextRoot "m.ckpt")) "" ∈
      (processFile env8 "f" false false 1 1 "m.ckpt").1 ∧
    (processFile env8 "f" false false 1 1 "m.ckpt").2 = false :=
  absent_description_empty_file env8 "f" "m.ckpt" 1 1 "H" ⟨some none, some 7, some []⟩
    none [] (by decide) rfl rfl rfl rfl (Or.inl rfl) rfl rfl

/-! ### Claim C9: console progress lines -/

/-- C9 counterexample: a directory containing only `readme.txt` produces
no progress line for that file (the extension filter precedes the print),
so the run does not print one progress line per file of the directory. -/
theorem progress_line_counterexample :
    mainRun env9 "f" false false = ([Event.print "Finished processing all files."], true) ∧
    Event.print (progressLine 1 1 "readme.txt") ∉ (mainRun env9 "f" false false).1 :=
  ⟨by decide, by decide⟩

theorem processFile_progress_mem (env : Env) (fp : String) (fu cem : Bool)
    (total counter : Nat) (fn : String) (hcand : isCandidate fn = true) :
    Event.print (progressLine counter total fn) ∈
      (processFile env fp fu cem total counter fn).1 := by
  rw [processFile, hcand]
  simp only [Bool.not_true, Bool.false_eq_true, if_false]
  repeat' split
  all_goals simp [List.mem_append]

theorem runFiles_progress_mem (env : Env) (fp : String) (fu cem : Bool) (total : Nat) :
    ∀ (fns : List String) (counter : Nat),
      (runFiles env fp fu cem total counter fns).2 = true →
      ∀ k, (hk : k < fns.length) → isCandidate (fns.get ⟨k, hk⟩) = true →
        Event.print (progressLine (counter + k + 1) total (fns.get ⟨k, hk⟩)) ∈
          (runFiles env fp fu cem total counter fns).1 := by
  intro fns
  induction fns with
  | nil => intro counter _ k hk; simp at hk
  | cons fn rest ih =>
    intro counter hdone k hk hcand
    rw [runFiles] at hdone ⊢
    by_cases hcr : (processFile env fp fu cem total (counter + 1) fn).2 = true
    · simp [hcr] at hdone
    · simp only [Bool.not_eq_true] at hcr
      simp only [hcr, Bool.false_eq_true, if_false] at hdone ⊢
      cases k with
      | zero =>
        apply List.mem_append_left
        exact processFile_progress_mem env fp fu cem total (counter + 1) fn hcand
      | succ m =>
        apply List.mem_append_right
        have hm : m < rest.length := by
          simp only [List.length_cons] at hk; omega
        have := ih (counter + 1) hdone m hm hcand
        have harith : counter + 1 + m + 1 = counter + (m + 1) + 1 := by omega
        rw [harith] at this
        exact this

theorem runFiles_getLast (env : Env) (fp : String) (fu cem : Bool) (total : Nat) :
    ∀ (fns : List String) (counter : Nat),
      (runFiles env fp fu cem total counter fns).2 = true →
      (runFiles env fp fu cem total counter fns).1.getLast? =
        some (Event.print "Finished processing all files.") := by
  intro fns
  induction fns with
  | nil => intro counter _; rfl
  | cons fn rest ih =>
    intro counter hdone
    rw [runFiles] at hdone ⊢
    by_cases hcr : (processFile env fp fu cem total (counter + 1) fn).2 = true
    · simp [hcr] at hdone
    · simp only [Bool.not_eq_true] at hcr
      simp only [hcr, Bool.false_eq_true, if_false] at hdone ⊢
      have h2 := ih (counter + 1) hdone
      rw [List.getLast?_append, h2]
      rfl

/-- C9 as amended: a completed run prints one progress line
`Processing file (i/n) name` per candidate file of the directory (a file
passing the extension filter), where `i` is the file's 1-based position
among all directory entries and `n` the number of all directory entries,
and the trace ends with the completion line. -/
theorem progress_lines_amended (env : Env) (fp : String) (fu cem : Bool)
    (hdone : (mainRun env fp fu cem).2 = true) :
    (∀ k, (hk : k < env.listdir.length) →
      isCandidate (env.listdir.get ⟨k, hk⟩) = true →
      Event.print (progressLine (k + 1) env.listdir.length (env.listdir.get ⟨k, hk⟩)) ∈
        (mainRun env fp fu cem).1) ∧
    (mainRun env fp fu cem).1.getLast? =
      some (Event.print "Finished processing all files.") := by
  constructor
  · intro k hk hcand
    have := runFiles_progress_mem env fp fu cem env.listdir.length env.listdir 0 hdone
      k hk hcand
    simpa using this
  · exact runFiles_getLast env fp fu cem env.listdir.length env.listdir 0 hdone

/-- Witness for the amended C9 at a concrete environment. -/
theorem progress_lines_amended_witness :
    Event.print (progressLine 1 1 "m.ckpt") ∈ (mainRun env5 "f" false false).1 ∧
    (mainRun env5 "f" false false).1.getLast? =
      some (Event.print "Finished processing all files.") :=
  ⟨(progress_lines_amended env5 "f" false false (by decide)).1 0 (by decide) (by decide),
    (progress_lines_amended env5 "f" false false (by decide)).2⟩

/-! ### Claim C7: the filesystem layout of the outputs -/

theorem saveImages_write_shape (env : Env) (fn fo fe : String) :
    ∀ (imgs : List (Nat × ImageRec)) (e : Event),
      e ∈ saveImages env fn fo fe imgs → e.isWrite = true →
      ∃ i h c, e = Event.write (path_join fo (imageFileName i fe h)) c := by
  intro imgs
  induction imgs with
  | nil => intro e he; cases he
  | cons p rest ih =>
    intro e he hw
    rcases p with ⟨j, img⟩
    rw [saveImages] at he
    rcases List.mem_cons.1 he with rfl | he'
    · cases hw
    · rcases hg : env.getImage (rewriteWidthUrl img) with _ | ⟨s, cont⟩
      · rw [hg] at he'
        rcases List.mem_cons.1 he' with rfl | he''
        · cases hw
        · exact ih e he'' hw
      · rw [hg] at he'
        cases s
        · simp only [Bool.not_false, if_true] at he'
          rcases List.mem_cons.1 he' with rfl | he''
          · cases hw
          · exact ih e he'' hw
        · simp only [Bool.not_true, Bool.false_eq_true, if_false] at he'
          by_cases hwr : env.writeOk (path_join fo (imageFileName j fe img.hash)) = true
          · rw [if_pos hwr] at he'
            rcases List.mem_cons.1 he' with rfl | he''
            · exact ⟨j, img.hash, cont, rfl⟩
            · exact ih e he'' hw
          · rw [if_neg hwr] at he'
            rcases List.mem_cons.1 he' with rfl | he''
            · cases hw
            · exact ih e he'' hw

theorem finishFile_write_shape (env : Env) (fn fo fe : String)
    (d : Option String) (imgs : List (Nat × ImageRec)) (e : Event)
    (he : e ∈ finishFile env fn fo fe d imgs) (hw : e.isWrite = true) :
    (∃ c, e = Event.write (path_join fo (fe ++ ".md")) c) ∨
    ∃ i h c, e = Event.write (path_join fo (imageFileName i fe h)) c := by
  rw [finishFile] at he
  rcases List.mem_cons.1 he with rfl | he'
  · cases hw
  · by_cases hwr : env.writeOk (path_join fo (fe ++ ".md")) = true
    · rw [if_pos hwr] at he'
      rcases List.mem_cons.1 he' with rfl | he''
      · exact Or.inl ⟨mdContent env.md d, rfl⟩
      · exact Or.inr (saveImages_write_shape env fn fo fe imgs e he'' hw)
    · rw [if_neg hwr] at he'
      rcases List.mem_cons.1 he' with rfl | he''
      · cases hw
      · cases he''

theorem not_write_of_all {L : List Event} {e : Event}
    (hall : L.all (fun x => !x.isWrite) = true) (he : e ∈ L) (hw : e.isWrite = true) :
    False := by
  have h := List.all_eq_true.1 hall e he
  rw [hw] at h
  cases h

theorem processFile_write_shape (env : Env) (fp : String) (fu cem : Bool)
    (total counter : Nat) (fn : String) (e : Event)
    (he : e ∈ (processFile env fp fu cem total counter fn).1) (hw : e.isWrite = true) :
    (∃ c, e = Event.write (mdPath fp (splitextRoot fn)) c) ∨
    ∃ i h c, e = Event.write (imgPath fp (splitextRoot fn) i h) c := by
  rw [processFile] at he
  simp only [] at he
  repeat' (first | split at he | simp only [] at he)
  all_goals
    first
      | (refine (not_write_of_all ?_ he hw).elim; rfl)
      | (rcases List.mem_append.1 he with hL | hfin
         · exact (not_write_of_all (by rfl) hL hw).elim
         · exact finishFile_write_shape env fn
             (previewFolder fp (splitextRoot fn)) (splitextRoot fn) _ _ e hfin hw)

theorem runFiles_write_shape (env : Env) (fp : String) (fu cem : Bool) (total : Nat) :
    ∀ (fns : List String) (counter : Nat) (e : Event),
      e ∈ (runFiles env fp fu cem total counter fns).1 → e.isWrite = true →
      ∃ fn, fn ∈ fns ∧
        ((∃ c, e = Event.write (mdPath fp (splitextRoot fn)) c) ∨
          ∃ i h c, e = Event.write (imgPath fp (splitextRoot fn) i h) c) := by
  intro fns
  induction fns with
  | nil =>
    intro counter e he hw
    rcases List.mem_singleton.1 he with rfl
    cases hw
  | cons fn rest ih =>
    intro counter e he hw
    rw [runFiles] at he
    by_cases hcr : (processFile env fp fu cem total (counter + 1) fn).2 = true
    · simp only [hcr, if_true] at he
      exact ⟨fn, List.mem_cons_self fn rest,
        processFile_write_shape env fp fu cem total (counter + 1) fn e he hw⟩
    · simp only [Bool.not_eq_true] at hcr
      simp only [hcr, Bool.false_eq_true, if_false] at he
      rcases List.mem_append.1 he with he' | he'
      · exact ⟨fn, List.mem_cons_self fn rest,
          processFile_write_shape env fp fu cem total (counter + 1) fn e he' hw⟩
      · obtain ⟨g, hg, hsh⟩ := ih (counter + 1) e he' hw
        exact ⟨g, List.mem_cons_of_mem fn hg, hsh⟩

/-- C7: every file write of any run lands at one of exactly two kinds of
paths, both inside the preview folder of some listed file's base name `B`:
the description at `<target>/Previews/B/B.md`, or an image at
`<target>/Previews/B/<i>_B.<sanitized>.png` where `<sanitized>` is an
image hash passed through `format_storage_hash · 32`. -/
theorem output_paths_spec (env : Env) (fp : String) (fu cem : Bool) (e : Event)
    (he : e ∈ (mainRun env fp fu cem).1) (hw : e.isWrite = true) :
    ∃ fn, fn ∈ env.listdir ∧
      ((∃ c, e = Event.write (mdPath fp (splitextRoot fn)) c) ∨
        ∃ i h c, e = Event.write (imgPath fp (splitextRoot fn) i h) c) :=
  runFiles_write_shape env fp fu cem env.listdir.length env.listdir 0 e he hw

/-- Witness for C7 at a concrete environment and write event. -/
theorem output_paths_spec_witness :
    ∃ fn, fn ∈ env2.listdir ∧
      ((∃ c, Event.write "f/Previews/m/m.md" "d" =
          Event.write (mdPath "f" (splitextRoot fn)) c) ∨
        ∃ i h c, Event.write "f/Previews/m/m.md" "d" =
          Event.write (imgPath "f" (splitextRoot fn) i h) c) :=
  output_paths_spec env2 "f" false false (Event.write "f/Previews/m/m.md" "d")
    (by decide) rfl

end Civitai
